import Mathlib

/-!
Shallow embedding of the Replacement Engine of `anonipy`
(`src/anonipy/anonymize/strategies/pseudonymization.py`,
class `PseudonymizationStrategy`).

Documents are Python `str` values sliced at character positions; we model
them as `List Char`, with Python's clamping slice semantics
(`text[:k]` is `List.take k`, `text[k:]` is `List.drop k` for
non-negative `k`).  The pluggable value generator (`self.mapping`) may
fail, which in Python propagates as an exception; we model it as a
function into `Except ε`.  Python's `sorted(entities, key=..., reverse=True)`
is a stable descending sort; we embed it as a structurally recursive stable
insertion sort (`sortDesc`), extensionally equal to any stable sort, and
prove the characterizing properties (permutation, descending order,
stability) below.
-/

/-- Python string: a sequence of Unicode characters. -/
abbrev Str := List Char

instance {ε α : Type} [DecidableEq ε] [DecidableEq α] : DecidableEq (Except ε α) := fun a b =>
  match a, b with
  | .ok x, .ok y =>
    if h : x = y then .isTrue (by rw [h]) else .isFalse (by intro hc; cases hc; exact h rfl)
  | .error x, .error y =>
    if h : x = y then .isTrue (by rw [h]) else .isFalse (by intro hc; cases hc; exact h rfl)
  | .ok _, .error _ => .isFalse (by intro hc; cases hc)
  | .error _, .ok _ => .isFalse (by intro hc; cases hc)

/-- Entity record (`anonipy.definitions.Entity`): a located sensitive span
with its exact substring `text`, semantic `label`, and half-open character
offsets `start_index`/`end_index`. -/
structure Entity where
  text : Str
  label : Str
  start_index : Nat
  end_index : Nat
deriving DecidableEq

/-- Replacement record produced by the engine: the source entity's fields
plus the substituted `anonymized_text`. -/
structure Replacement where
  original_text : Str
  label : Str
  start_index : Nat
  end_index : Nat
  anonymized_text : Str
deriving DecidableEq

/-- Entity-shaped projection of a replacement record: the four fields the
engine copies verbatim from the source entity. -/
def Replacement.toEntity (r : Replacement) : Entity :=
  { text := r.original_text, label := r.label,
    start_index := r.start_index, end_index := r.end_index }

/-- Stable descending insertion: place `e` before the first element whose
`start_index` is not strictly greater, so earlier-supplied entities stay
ahead of later ones with an equal `start_index`. -/
def insertDesc (e : Entity) : List Entity → List Entity
  | [] => [e]
  | x :: xs => if e.start_index < x.start_index then x :: insertDesc e xs else e :: x :: xs

/-- Embedding of Python's `sorted(entities, key=lambda x: x.start_index, reverse=True)`:
a stable sort by descending `start_index` (Python's `sorted` is guaranteed
stable, also with `reverse=True`).  Any stable sort computes the same list;
we use structurally recursive insertion sort so that proofs can evaluate it. -/
def sortDesc : List Entity → List Entity
  | [] => []
  | x :: xs => insertDesc x (sortDesc xs)

/-- Embedding of `PseudonymizationStrategy._check_replacement`: linear scan
of the accumulated replacements for the first one whose `original_text`
equals the entity's `text`; `None` when there is none. -/
def check_replacement (entity : Entity) (replacements : List Replacement) : Option Str :=
  match replacements.filter (fun x => x.original_text == entity.text) with
  | [] => none
  | r :: _ => some r.anonymized_text

/-- Python truthiness test `not x` for `x : Optional[str]`: true on `None`
and true on the empty string (both are falsy in Python). -/
def pyNot : Option Str → Bool
  | none => true
  | some s => s.isEmpty

/-- Embedding of `PseudonymizationStrategy._create_replacement`: resolve the
anonymized text by the truthiness check
`self.mapping(text, entity) if not anonymized_text else anonymized_text`
and assemble the replacement record from the entity's own fields. -/
def create_replacement (mapping : Str → Entity → Except ε Str) (entity : Entity)
    (text : Str) (replacements : List Replacement) : Except ε Replacement := do
  let checked := check_replacement entity replacements
  let anonymized_text ← if pyNot checked then mapping text entity else pure (checked.getD [])
  return { original_text := entity.text, label := entity.label,
           start_index := entity.start_index, end_index := entity.end_index,
           anonymized_text := anonymized_text }

/-- Embedding of the `for ent in s_entities` loop of
`PseudonymizationStrategy.anonymize`: create the replacement, rebuild the
working text as `text[: r.start_index] + r.anonymized_text + text[r.end_index :]`,
and append the record to the accumulator. -/
def anonymizeLoop (mapping : Str → Entity → Except ε Str) :
    Str → List Entity → List Replacement → Except ε (Str × List Replacement)
  | text, [], replacements => .ok (text, replacements)
  | text, ent :: rest, replacements => do
    let r ← create_replacement mapping ent text replacements
    anonymizeLoop mapping
      (text.take r.start_index ++ r.anonymized_text ++ text.drop r.end_index)
      rest (replacements ++ [r])

/-- Embedding of `PseudonymizationStrategy.anonymize`: stable descending
sort by `start_index`, the splice loop, and the final accumulator reversal
(`replacements[::-1]`). -/
def anonymize (mapping : Str → Entity → Except ε Str) (text : Str)
    (entities : List Entity) : Except ε (Str × List Replacement) :=
  let s_entities := sortDesc entities
  (anonymizeLoop mapping text s_entities []).map (fun p => (p.1, p.2.reverse))

/-- One splice step: the rebuild
`text[: r.start_index] + r.anonymized_text + text[r.end_index :]`
performed by the loop body of `anonymize`. -/
def splice (t : Str) (r : Replacement) : Str :=
  t.take r.start_index ++ r.anonymized_text ++ t.drop r.end_index

/-- Invariant of the replacement accumulator when the generator never
returns the empty string: every stored `anonymized_text` is nonempty, and
records with equal `original_text` agree on `anonymized_text`. -/
def ConsistentNE (reps : List Replacement) : Prop :=
  (∀ r ∈ reps, r.anonymized_text ≠ []) ∧
  ∀ r1 ∈ reps, ∀ r2 ∈ reps, r1.original_text = r2.original_text →
    r1.anonymized_text = r2.anonymized_text

/-- Concrete generator used in examples: always replaces with `"Z"`. -/
def okGenZ : Str → Entity → Except Unit Str := fun _ _ => .ok "Z".toList

/-- Concrete generator used in examples: always fails with error code `7`. -/
def errGen7 : Str → Entity → Except Nat Str := fun _ _ => .error 7

/-- Concrete generator used in examples: returns the empty string when the
current working text has length 5 and `"Z"` otherwise (legal: generators
may depend on the text and need not be deterministic across calls). -/
def genLenSwitch : Str → Entity → Except Unit Str := fun t _ =>
  .ok (if t.length = 5 then [] else "Z".toList)

/-- Concrete generator for the worked example of the spec: maps the entity
text `"Alice"` to `"PersonX"` and `"Bob"` to `"PersonY"`. -/
def genAliceBob : Str → Entity → Except Unit Str := fun _ e =>
  .ok (if e.text = "Alice".toList then "PersonX".toList
       else if e.text = "Bob".toList then "PersonY".toList
       else "?".toList)

/-! ## Lemmas about the de-duplication lookup and record creation -/

theorem check_replacement_none {e : Entity} {reps : List Replacement}
    (h : check_replacement e reps = none) :
    ∀ r ∈ reps, r.original_text ≠ e.text := by
  intro r hr hne
  have hmem : r ∈ reps.filter (fun x => x.original_text == e.text) :=
    List.mem_filter.mpr ⟨hr, by simp [hne]⟩
  unfold check_replacement at h
  cases hf : reps.filter (fun x => x.original_text == e.text) with
  | nil => rw [hf] at hmem; simp at hmem
  | cons a l => rw [hf] at h; simp at h

theorem check_replacement_some {e : Entity} {reps : List Replacement} {s : Str}
    (h : check_replacement e reps = some s) :
    ∃ r0, r0 ∈ reps ∧ r0.original_text = e.text ∧ r0.anonymized_text = s := by
  unfold check_replacement at h
  cases hf : reps.filter (fun x => x.original_text == e.text) with
  | nil => rw [hf] at h; simp at h
  | cons a l =>
    rw [hf] at h
    simp only [Option.some.injEq] at h
    have ha : a ∈ reps.filter (fun x => x.original_text == e.text) := by
      rw [hf]; exact List.mem_cons_self a l
    have hm := List.mem_filter.mp ha
    exact ⟨a, hm.1, by simpa using hm.2, h⟩

theorem create_replacement_gen_error {ε : Type} {mapping : Str → Entity → Except ε Str}
    {e : Entity} {t : Str} {reps : List Replacement} {err : ε}
    (hf : pyNot (check_replacement e reps) = true)
    (he : mapping t e = .error err) :
    create_replacement mapping e t reps = .error err := by
  simp [create_replacement, hf, he, Except.bind]

theorem create_replacement_gen_ok {ε : Type} {mapping : Str → Entity → Except ε Str}
    {e : Entity} {t : Str} {reps : List Replacement} {s : Str}
    (hf : pyNot (check_replacement e reps) = true)
    (hs : mapping t e = .ok s) :
    create_replacement mapping e t reps =
      .ok ⟨e.text, e.label, e.start_index, e.end_index, s⟩ := by
  simp [create_replacement, hf, hs, Except.bind]

theorem create_replacement_reuse {ε : Type} {mapping : Str → Entity → Except ε Str}
    {e : Entity} {t : Str} {reps : List Replacement} {s : Str}
    (hc : check_replacement e reps = some s) (hne : s ≠ []) :
    create_replacement mapping e t reps =
      .ok ⟨e.text, e.label, e.start_index, e.end_index, s⟩ := by
  have hf : pyNot (some s) = false := by simpa [pyNot] using hne
  simp [create_replacement, hc, hf, Except.bind]
  rfl

theorem except_bind_ok {ε α β : Type} (x : α) (f : α → Except ε β) :
    Except.bind (.ok x) f = f x := rfl

theorem except_bind_error {ε α β : Type} (err : ε) (f : α → Except ε β) :
    Except.bind (.error err) f = .error err := rfl

theorem create_replacement_ok_toEntity {ε : Type} {mapping : Str → Entity → Except ε Str}
    {e : Entity} {t : Str} {reps : List Replacement} {r : Replacement}
    (h : create_replacement mapping e t reps = .ok r) : r.toEntity = e := by
  by_cases hf : pyNot (check_replacement e reps) = true
  · cases hg : mapping t e with
    | error err => rw [create_replacement_gen_error hf hg] at h; cases h
    | ok s =>
      rw [create_replacement_gen_ok hf hg] at h
      injection h with h
      subst h
      rfl
  · cases hco : check_replacement e reps with
    | none => rw [hco] at hf; simp [pyNot] at hf
    | some s =>
      have hne : s ≠ [] := by
        rw [hco] at hf
        simpa [pyNot] using hf
      rw [create_replacement_reuse hco hne] at h
      injection h with h
      subst h
      rfl

theorem create_replacement_total {ε : Type} {mapping : Str → Entity → Except ε Str}
    (hgen : ∀ t e, ∃ s, mapping t e = .ok s) (e : Entity) (t : Str)
    (reps : List Replacement) :
    ∃ r, create_replacement mapping e t reps = .ok r := by
  by_cases hf : pyNot (check_replacement e reps) = true
  · obtain ⟨s, hs⟩ := hgen t e
    exact ⟨_, create_replacement_gen_ok hf hs⟩
  · cases hco : check_replacement e reps with
    | none => rw [hco] at hf; simp [pyNot] at hf
    | some s =>
      have hne : s ≠ [] := by
        rw [hco] at hf
        simpa [pyNot] using hf
      exact ⟨_, create_replacement_reuse hco hne⟩

/-! ## Lemmas about the splice loop -/

theorem anonymizeLoop_cons {ε : Type} {mapping : Str → Entity → Except ε Str}
    (t : Str) (ent : Entity) (rest : List Entity) (acc : List Replacement) :
    anonymizeLoop mapping t (ent :: rest) acc =
      Except.bind (create_replacement mapping ent t acc) (fun r =>
        anonymizeLoop mapping
          (t.take r.start_index ++ r.anonymized_text ++ t.drop r.end_index)
          rest (acc ++ [r])) := rfl

theorem anonymizeLoop_ok_spec {ε : Type} {mapping : Str → Entity → Except ε Str} :
    ∀ {es : List Entity} {t t' : Str} {acc reps : List Replacement},
      anonymizeLoop mapping t es acc = .ok (t', reps) →
      ∃ nr : List Replacement, reps = acc ++ nr ∧
        nr.map Replacement.toEntity = es ∧ t' = nr.foldl splice t
  | [], t, t', acc, reps, h => by
    simp [anonymizeLoop] at h
    exact ⟨[], by simp [h.2.symm], rfl, by simp [h.1]⟩
  | ent :: rest, t, t', acc, reps, h => by
    rw [anonymizeLoop_cons] at h
    cases hc : create_replacement mapping ent t acc with
    | error err => rw [hc, except_bind_error] at h; cases h
    | ok r =>
      rw [hc, except_bind_ok] at h
      obtain ⟨nr, h1, h2, h3⟩ := anonymizeLoop_ok_spec h
      refine ⟨r :: nr, by simp [h1], ?_, ?_⟩
      · simp [h2, create_replacement_ok_toEntity hc]
      · simpa [splice] using h3

theorem anonymizeLoop_append {ε : Type} {mapping : Str → Entity → Except ε Str} :
    ∀ (xs ys : List Entity) (t : Str) (acc : List Replacement),
      anonymizeLoop mapping t (xs ++ ys) acc =
        Except.bind (anonymizeLoop mapping t xs acc)
          (fun p => anonymizeLoop mapping p.1 ys p.2)
  | [], ys, t, acc => rfl
  | x :: xs, ys, t, acc => by
    rw [List.cons_append, anonymizeLoop_cons, anonymizeLoop_cons]
    cases hc : create_replacement mapping x t acc with
    | error err => rw [except_bind_error, except_bind_error, except_bind_error]
    | ok r =>
      rw [except_bind_ok, except_bind_ok]
      exact anonymizeLoop_append xs ys _ _

theorem anonymizeLoop_total {ε : Type} {mapping : Str → Entity → Except ε Str}
    (hgen : ∀ t e, ∃ s, mapping t e = .ok s) (es : List Entity) :
    ∀ (t : Str) (acc : List Replacement), ∃ p, anonymizeLoop mapping t es acc = .ok p := by
  induction es with
  | nil => exact fun t acc => ⟨(t, acc), rfl⟩
  | cons e rest ih =>
    intro t acc
    obtain ⟨r, hr⟩ := create_replacement_total hgen e t acc
    obtain ⟨p, hp⟩ :=
      ih (t.take r.start_index ++ r.anonymized_text ++ t.drop r.end_index) (acc ++ [r])
    refine ⟨p, ?_⟩
    rw [anonymizeLoop_cons, hr, except_bind_ok]
    exact hp

theorem anonymize_ok {ε : Type} {mapping : Str → Entity → Except ε Str}
    {text : Str} {entities : List Entity} {out : Str} {recs : List Replacement}
    (h : anonymize mapping text entities = .ok (out, recs)) :
    anonymizeLoop mapping text (sortDesc entities) [] = .ok (out, recs.reverse) := by
  simp only [anonymize] at h
  cases hl : anonymizeLoop mapping text (sortDesc entities) [] with
  | error err => rw [hl] at h; cases h
  | ok p =>
    rw [hl] at h
    simp [Except.map] at h
    rw [← h.1, ← h.2]
    simp

/-! ## The consistency invariant under a nonempty-valued generator -/

theorem consistent_step {ε : Type} {mapping : Str → Entity → Except ε Str}
    (hgen : ∀ t e s, mapping t e = .ok s → s ≠ [])
    {e : Entity} {t : Str} {acc : List Replacement} {r : Replacement}
    (hacc : ConsistentNE acc)
    (hc : create_replacement mapping e t acc = .ok r) :
    ConsistentNE (acc ++ [r]) := by
  by_cases hf : pyNot (check_replacement e acc) = true
  · cases hg : mapping t e with
    | error err => rw [create_replacement_gen_error hf hg] at hc; cases hc
    | ok s =>
      rw [create_replacement_gen_ok hf hg] at hc
      injection hc with hc
      subst hc
      have hs : s ≠ [] := hgen t e s hg
      have hnone : check_replacement e acc = none := by
        cases hco : check_replacement e acc with
        | none => rfl
        | some s0 =>
          obtain ⟨r0, hr0, _, hr0a⟩ := check_replacement_some hco
          rw [hco] at hf
          simp [pyNot, List.isEmpty_iff] at hf
          exact absurd (hr0a.trans hf) (hacc.1 r0 hr0)
      have hnotin := check_replacement_none hnone
      constructor
      · intro x hx
        rcases List.mem_append.mp hx with hx | hx
        · exact hacc.1 x hx
        · simp at hx; subst hx; exact hs
      · intro r1 h1 r2 h2 hor
        rcases List.mem_append.mp h1 with h1 | h1 <;>
          rcases List.mem_append.mp h2 with h2 | h2
        · exact hacc.2 r1 h1 r2 h2 hor
        · simp at h2; subst h2
          exact absurd hor (hnotin r1 h1)
        · simp at h1; subst h1
          exact absurd hor.symm (hnotin r2 h2)
        · simp at h1 h2; subst h1; subst h2; rfl
  · cases hco : check_replacement e acc with
    | none => rw [hco] at hf; simp [pyNot] at hf
    | some s =>
      have hne : s ≠ [] := by
        rw [hco] at hf
        simpa [pyNot] using hf
      rw [create_replacement_reuse hco hne] at hc
      injection hc with hc
      subst hc
      obtain ⟨r0, hr0, hr0o, hr0a⟩ := check_replacement_some hco
      constructor
      · intro x hx
        rcases List.mem_append.mp hx with hx | hx
        · exact hacc.1 x hx
        · simp at hx; subst hx; exact hne
      · intro r1 h1 r2 h2 hor
        rcases List.mem_append.mp h1 with h1 | h1 <;>
          rcases List.mem_append.mp h2 with h2 | h2
        · exact hacc.2 r1 h1 r2 h2 hor
        · simp at h2; subst h2
          have h01 : r1.original_text = r0.original_text := by rw [hr0o]; exact hor
          have h1a := hacc.2 r1 h1 r0 hr0 h01
          rw [h1a, hr0a]
        · simp at h1; subst h1
          have h02 : r0.original_text = r2.original_text := by rw [hr0o]; exact hor
          have h2a := hacc.2 r0 hr0 r2 h2 h02
          exact hr0a.symm.trans h2a
        · simp at h1 h2; subst h1; subst h2; rfl

theorem anonymizeLoop_consistent {ε : Type} {mapping : Str → Entity → Except ε Str}
    (hgen : ∀ t e s, mapping t e = .ok s → s ≠ []) :
    ∀ {es : List Entity} {t t' : Str} {acc reps : List Replacement},
      ConsistentNE acc → anonymizeLoop mapping t es acc = .ok (t', reps) →
      ConsistentNE reps
  | [], t, t', acc, reps, hacc, h => by
    simp [anonymizeLoop] at h
    rw [← h.2]
    exact hacc
  | ent :: rest, t, t', acc, reps, hacc, h => by
    rw [anonymizeLoop_cons] at h
    cases hc : create_replacement mapping ent t acc with
    | error err => rw [hc, except_bind_error] at h; cases h
    | ok r =>
      rw [hc, except_bind_ok] at h
      exact anonymizeLoop_consistent hgen (consistent_step hgen hacc hc) h

/-! ## Lemmas about the stable descending sort -/

theorem insertDesc_perm (e : Entity) (l : List Entity) : (insertDesc e l).Perm (e :: l) := by
  induction l with
  | nil => exact List.Perm.refl _
  | cons x xs ih =>
    unfold insertDesc
    by_cases h : e.start_index < x.start_index
    · simp only [if_pos h]
      exact (ih.cons x).trans (List.Perm.swap e x xs)
    · simp only [if_neg h]
      exact List.Perm.refl _

theorem sortDesc_perm (l : List Entity) : (sortDesc l).Perm l := by
  induction l with
  | nil => exact List.Perm.refl _
  | cons x xs ih => exact (insertDesc_perm x (sortDesc xs)).trans (ih.cons x)

theorem insertDesc_sorted {e : Entity} {l : List Entity}
    (h : l.Pairwise (fun a b => b.start_index ≤ a.start_index)) :
    (insertDesc e l).Pairwise (fun a b => b.start_index ≤ a.start_index) := by
  induction l with
  | nil => simp [insertDesc]
  | cons x xs ih =>
    rcases List.pairwise_cons.mp h with ⟨hx, hxs⟩
    unfold insertDesc
    by_cases hlt : e.start_index < x.start_index
    · simp only [if_pos hlt]
      refine List.pairwise_cons.mpr ⟨?_, ih hxs⟩
      intro y hy
      have hy2 := (insertDesc_perm e xs).mem_iff.mp hy
      rcases List.mem_cons.mp hy2 with hy2 | hy2
      · subst hy2; omega
      · exact hx y hy2
    · simp only [if_neg hlt]
      refine List.pairwise_cons.mpr ⟨?_, h⟩
      intro y hy
      rcases List.mem_cons.mp hy with hy | hy
      · subst hy; omega
      · have := hx y hy
        omega

theorem sortDesc_sorted (l : List Entity) :
    (sortDesc l).Pairwise (fun a b => b.start_index ≤ a.start_index) := by
  induction l with
  | nil => simp [sortDesc]
  | cons x xs ih => exact insertDesc_sorted ih

theorem insertDesc_filter (k : Nat) (e : Entity) (l : List Entity) :
    (insertDesc e l).filter (fun x => x.start_index == k)
      = if e.start_index = k
        then e :: l.filter (fun x => x.start_index == k)
        else l.filter (fun x => x.start_index == k) := by
  induction l with
  | nil => by_cases hek : e.start_index = k <;> simp [insertDesc, hek]
  | cons x xs ih =>
    unfold insertDesc
    by_cases hlt : e.start_index < x.start_index
    · simp only [if_pos hlt]
      by_cases hek : e.start_index = k
      · have hxk : ¬ (x.start_index = k) := by omega
        simp [List.filter_cons, hek, hxk, ih]
      · simp [List.filter_cons, hek, ih]
    · simp only [if_neg hlt]
      by_cases hek : e.start_index = k <;> simp [List.filter_cons, hek]

theorem sortDesc_filter (k : Nat) (l : List Entity) :
    (sortDesc l).filter (fun x => x.start_index == k)
      = l.filter (fun x => x.start_index == k) := by
  induction l with
  | nil => rfl
  | cons x xs ih =>
    show (insertDesc x (sortDesc xs)).filter (fun x => x.start_index == k) = _
    rw [insertDesc_filter]
    by_cases hxk : x.start_index = k <;> simp [List.filter_cons, hxk, ih]

/-! ## Claim theorems -/

/-- Claim C1, counterexample: the consistency law as stated fails.  With a
generator that returns the empty string for the right-most `"ab"` (legal:
generators may depend on the current text), the stored empty replacement is
falsy, so the generator is invoked again for the left `"ab"` and returns a
different value: the two records share `original_text` but disagree on
`anonymized_text`. -/
theorem consistency_cex :
    anonymize genLenSwitch "ab ab".toList
      [⟨"ab".toList, "L".toList, 0, 2⟩, ⟨"ab".toList, "L".toList, 3, 5⟩]
    = .ok ("Z ".toList,
        [⟨"ab".toList, "L".toList, 0, 2, "Z".toList⟩,
         ⟨"ab".toList, "L".toList, 3, 5, []⟩]) ∧
    (Replacement.mk "ab".toList "L".toList 0 2 "Z".toList).original_text
      = (Replacement.mk "ab".toList "L".toList 3 5 []).original_text ∧
    (Replacement.mk "ab".toList "L".toList 0 2 "Z".toList).anonymized_text
      ≠ (Replacement.mk "ab".toList "L".toList 3 5 []).anonymized_text := by
  decide

/-- Claim C1, amended: provided the Value Generator never returns the empty
string, all Replacement Records of one call with equal `original_text` have
equal `anonymized_text`; and whenever a previously-produced record with
matching `original_text` (and hence nonempty stored value) exists, its
`anonymized_text` is reused verbatim — the result is the same for every
generator, i.e. the Value Generator is not invoked again. -/
theorem consistency_theorem {ε : Type} {mapping : Str → Entity → Except ε Str}
    (hgen : ∀ t e s, mapping t e = .ok s → s ≠ [])
    {text : Str} {entities : List Entity} {out : Str} {recs : List Replacement}
    (h : anonymize mapping text entities = .ok (out, recs)) :
    (∀ r1 ∈ recs, ∀ r2 ∈ recs, r1.original_text = r2.original_text →
       r1.anonymized_text = r2.anonymized_text) ∧
    (∀ (e : Entity) (t : Str) (reps : List Replacement) (s : Str),
       check_replacement e reps = some s → s ≠ [] →
       ∀ (mapping2 : Str → Entity → Except ε Str),
         create_replacement mapping2 e t reps =
           .ok ⟨e.text, e.label, e.start_index, e.end_index, s⟩) := by
  constructor
  · have hloop := anonymize_ok h
    have hcons := anonymizeLoop_consistent hgen (by constructor <;> simp) hloop
    intro r1 h1 r2 h2
    exact hcons.2 r1 (List.mem_reverse.mpr h1) r2 (List.mem_reverse.mpr h2)
  · intro e t reps s hc hne mapping2
    exact create_replacement_reuse hc hne

/-- Claim C1, witness: the amended consistency law applied to a concrete
call with the nonempty-valued generator `okGenZ`. -/
theorem consistency_witness :
    (∀ r1 ∈ ([⟨"a".toList, "L".toList, 0, 1, "Z".toList⟩] : List Replacement),
       ∀ r2 ∈ ([⟨"a".toList, "L".toList, 0, 1, "Z".toList⟩] : List Replacement),
       r1.original_text = r2.original_text →
       r1.anonymized_text = r2.anonymized_text) ∧
    (∀ (e : Entity) (t : Str) (reps : List Replacement) (s : Str),
       check_replacement e reps = some s → s ≠ [] →
       ∀ (mapping2 : Str → Entity → Except Unit Str),
         create_replacement mapping2 e t reps =
           .ok ⟨e.text, e.label, e.start_index, e.end_index, s⟩) :=
  consistency_theorem
    (by intro t e s hs; injection hs with hs; subst hs; decide)
    (by decide :
      anonymize okGenZ "ab".toList [⟨"a".toList, "L".toList, 0, 1⟩]
        = .ok ("Zb".toList, [⟨"a".toList, "L".toList, 0, 1, "Z".toList⟩]))

/-- Claim C2, counterexample: an entity with `start_index = 5 ≥ 2 = end_index`
(and `start_index` beyond the length-3 text) does not make `anonymize` fail;
Python slicing clamps the indices and the call returns a (corrupted) result. -/
theorem invalid_entity_cex :
    (2 ≤ 5 ∧ ("abc".toList).length < 5) ∧
    anonymize okGenZ "abc".toList [⟨"x".toList, "L".toList, 5, 2⟩]
      = .ok ("abcZc".toList, [⟨"x".toList, "L".toList, 5, 2, "Z".toList⟩]) := by
  decide

/-- Claim C2, amended: the engine performs no validation of entity indices.
Whenever the Value Generator is total, `anonymize` succeeds on every text and
every entity list — out-of-bounds indices are clamped by the slicing and
inverted spans (`start_index ≥ end_index`) splice without error, so the call
never fails because of entity indices. -/
theorem invalid_entity_theorem {ε : Type} {mapping : Str → Entity → Except ε Str}
    (hgen : ∀ t e, ∃ s, mapping t e = .ok s)
    (text : Str) (entities : List Entity) :
    ∃ p, anonymize mapping text entities = .ok p := by
  obtain ⟨p, hp⟩ := anonymizeLoop_total hgen (sortDesc entities) text []
  exact ⟨(p.1, p.2.reverse), by simp [anonymize, hp, Except.map]⟩

/-- Claim C2, witness: with the total generator `okGenZ`, the call on the
invalid entity of the counterexample succeeds. -/
theorem invalid_entity_witness :
    ∃ p, anonymize okGenZ "abc".toList [⟨"x".toList, "L".toList, 5, 2⟩] = .ok p :=
  invalid_entity_theorem (fun _ _ => ⟨"Z".toList, rfl⟩) ("abc".toList)
    [⟨"x".toList, "L".toList, 5, 2⟩]

/-- Claim C3, counterexample: two supplied entities with the same
`start_index` yield two records with the same `start_index`, so the returned
sequence is not strictly ascending. -/
theorem output_order_cex :
    anonymize okGenZ "ab".toList
      [⟨"a".toList, "L".toList, 0, 1⟩, ⟨"a".toList, "L".toList, 0, 1⟩]
    = .ok ("Zb".toList,
        [⟨"a".toList, "L".toList, 0, 1, "Z".toList⟩,
         ⟨"a".toList, "L".toList, 0, 1, "Z".toList⟩]) ∧
    ¬ ([⟨"a".toList, "L".toList, 0, 1, "Z".toList⟩,
        ⟨"a".toList, "L".toList, 0, 1, "Z".toList⟩] : List Replacement).Pairwise
        (fun a b => a.start_index < b.start_index) := by
  refine ⟨by decide, fun hp => ?_⟩
  have := (List.pairwise_cons.mp hp).1 _ (List.mem_cons_self _ _)
  omega

/-- Claim C3, amended: the returned Replacement Record sequence is ascending
(non-strictly) by `start_index`; it is strictly ascending whenever the
supplied entities have pairwise distinct `start_index` values. -/
theorem output_order_theorem {ε : Type} {mapping : Str → Entity → Except ε Str}
    {text : Str} {entities : List Entity} {out : Str} {recs : List Replacement}
    (h : anonymize mapping text entities = .ok (out, recs)) :
    recs.Pairwise (fun a b => a.start_index ≤ b.start_index) ∧
    (entities.Pairwise (fun a b => a.start_index ≠ b.start_index) →
      recs.Pairwise (fun a b => a.start_index < b.start_index)) := by
  have hloop := anonymize_ok h
  obtain ⟨nr, hnr, hmap, _⟩ := anonymizeLoop_ok_spec hloop
  simp at hnr
  subst hnr
  have hsorted := sortDesc_sorted entities
  rw [← hmap, List.pairwise_map, List.pairwise_reverse] at hsorted
  have hle : recs.Pairwise (fun a b => a.start_index ≤ b.start_index) :=
    hsorted.imp (fun hab => hab)
  refine ⟨hle, fun hdist => ?_⟩
  have hd : (sortDesc entities).Pairwise
      (fun a b => a.start_index ≠ b.start_index) :=
    ((sortDesc_perm entities).pairwise_iff (fun hab => hab.symm)).mpr hdist
  rw [← hmap, List.pairwise_map, List.pairwise_reverse] at hd
  have hne : recs.Pairwise (fun a b => a.start_index ≠ b.start_index) :=
    hd.imp (fun hab => hab.symm)
  exact (hle.and hne).imp (fun hab => lt_of_le_of_ne hab.1 hab.2)

/-- Claim C3, witness: the amended ordering on a concrete call with two
entities with distinct `start_index`. -/
theorem output_order_witness :
    ([⟨"a".toList, "L".toList, 0, 1, "Z".toList⟩,
      ⟨"b".toList, "L".toList, 1, 2, "Z".toList⟩] : List Replacement).Pairwise
      (fun a b => a.start_index ≤ b.start_index) ∧
    (([⟨"a".toList, "L".toList, 0, 1⟩, ⟨"b".toList, "L".toList, 1, 2⟩]
        : List Entity).Pairwise (fun a b => a.start_index ≠ b.start_index) →
      ([⟨"a".toList, "L".toList, 0, 1, "Z".toList⟩,
        ⟨"b".toList, "L".toList, 1, 2, "Z".toList⟩] : List Replacement).Pairwise
        (fun a b => a.start_index < b.start_index)) :=
  output_order_theorem
    (by decide :
      anonymize okGenZ "abc".toList
        [⟨"a".toList, "L".toList, 0, 1⟩, ⟨"b".toList, "L".toList, 1, 2⟩]
      = .ok ("ZZc".toList,
          [⟨"a".toList, "L".toList, 0, 1, "Z".toList⟩,
           ⟨"b".toList, "L".toList, 1, 2, "Z".toList⟩]))

/-- Claim C4, counterexample: the engine copies entity fields without
validation, so an entity with `start_index = end_index = 1` and a `text`
field that is not the document slice yields a returned record violating both
`start_index < end_index` and the slice agreement. -/
theorem record_validity_cex :
    anonymize okGenZ "abc".toList [⟨"xy".toList, "L".toList, 1, 1⟩]
      = .ok ("aZbc".toList, [⟨"xy".toList, "L".toList, 1, 1, "Z".toList⟩]) ∧
    ¬ ((1 : Nat) < 1) ∧
    (("abc".toList).drop 1).take 0 ≠ "xy".toList := by
  decide

/-- Claim C4, amended: every returned record copies its source entity's
`start_index`, `end_index` and `text` verbatim; hence when every supplied
entity satisfies `start_index < end_index ≤ length(text)` and
`text[start_index:end_index] == entity.text`, every returned record
satisfies the same bounds and slice agreement with the original text. -/
theorem record_validity_theorem {ε : Type} {mapping : Str → Entity → Except ε Str}
    {text : Str} {entities : List Entity} {out : Str} {recs : List Replacement}
    (hval : ∀ e ∈ entities, e.start_index < e.end_index ∧
        e.end_index ≤ text.length ∧
        (text.drop e.start_index).take (e.end_index - e.start_index) = e.text)
    (h : anonymize mapping text entities = .ok (out, recs)) :
    ∀ r ∈ recs, r.start_index < r.end_index ∧ r.end_index ≤ text.length ∧
      (text.drop r.start_index).take (r.end_index - r.start_index)
        = r.original_text := by
  have hloop := anonymize_ok h
  obtain ⟨nr, hnr, hmap, _⟩ := anonymizeLoop_ok_spec hloop
  simp at hnr
  subst hnr
  intro r hr
  have hm : r.toEntity ∈ (recs.reverse).map Replacement.toEntity :=
    List.mem_map_of_mem _ (List.mem_reverse.mpr hr)
  rw [hmap] at hm
  exact hval r.toEntity ((sortDesc_perm entities).mem_iff.mp hm)

/-- Claim C4, witness: the amended record validity on a concrete call whose
single entity is valid for the text. -/
theorem record_validity_witness :
    (1 : Nat) < 2 ∧ 2 ≤ ("abc".toList).length ∧
      (("abc".toList).drop 1).take (2 - 1) = "b".toList :=
  record_validity_theorem (by decide)
    (by decide :
      anonymize okGenZ "abc".toList [⟨"b".toList, "L".toList, 1, 2⟩]
        = .ok ("aZc".toList, [⟨"b".toList, "L".toList, 1, 2, "Z".toList⟩]))
    ⟨"b".toList, "L".toList, 1, 2, "Z".toList⟩ (by decide)

/-- Claim C5: the processing order (the reversed output, projected back to
entity fields) is exactly the stable descending sort of the supplied
entities — descending by `start_index`, and for every start value `k` the
subsequence of processed entities with that start equals the caller's
subsequence in the caller's order (stable tie-breaking); it is a
permutation of the input, so processing covers exactly the supplied
entities and the result is deterministic for equal starts. -/
theorem processing_order_theorem {ε : Type} {mapping : Str → Entity → Except ε Str}
    {text : Str} {entities : List Entity} {out : Str} {recs : List Replacement}
    (h : anonymize mapping text entities = .ok (out, recs)) :
    ((recs.reverse.map Replacement.toEntity).Pairwise
        (fun a b => b.start_index ≤ a.start_index)) ∧
    (∀ k, (recs.reverse.map Replacement.toEntity).filter
        (fun e => e.start_index == k)
      = entities.filter (fun e => e.start_index == k)) ∧
    (recs.reverse.map Replacement.toEntity).Perm entities := by
  have hloop := anonymize_ok h
  obtain ⟨nr, hnr, hmap, _⟩ := anonymizeLoop_ok_spec hloop
  simp at hnr
  subst hnr
  rw [hmap]
  exact ⟨sortDesc_sorted entities, fun k => sortDesc_filter k entities,
    sortDesc_perm entities⟩

/-- Claim C5, witness: the processing-order properties on a concrete call
with a `start_index` tie. -/
theorem processing_order_witness :
    ((([⟨"a".toList, "M".toList, 0, 1, "Z".toList⟩,
        ⟨"a".toList, "L".toList, 0, 1, "Z".toList⟩]
        : List Replacement).reverse.map Replacement.toEntity).Pairwise
        (fun a b => b.start_index ≤ a.start_index)) ∧
    (∀ k, (([⟨"a".toList, "M".toList, 0, 1, "Z".toList⟩,
        ⟨"a".toList, "L".toList, 0, 1, "Z".toList⟩]
        : List Replacement).reverse.map Replacement.toEntity).filter
        (fun e => e.start_index == k)
      = ([⟨"a".toList, "L".toList, 0, 1⟩, ⟨"a".toList, "M".toList, 0, 1⟩]
        : List Entity).filter (fun e => e.start_index == k)) ∧
    (([⟨"a".toList, "M".toList, 0, 1, "Z".toList⟩,
       ⟨"a".toList, "L".toList, 0, 1, "Z".toList⟩]
       : List Replacement).reverse.map Replacement.toEntity).Perm
      [⟨"a".toList, "L".toList, 0, 1⟩, ⟨"a".toList, "M".toList, 0, 1⟩] :=
  processing_order_theorem
    (by decide :
      anonymize okGenZ "ab".toList
        [⟨"a".toList, "L".toList, 0, 1⟩, ⟨"a".toList, "M".toList, 0, 1⟩]
      = .ok ("Zb".toList,
          [⟨"a".toList, "M".toList, 0, 1, "Z".toList⟩,
           ⟨"a".toList, "L".toList, 0, 1, "Z".toList⟩]))

/-- Claim C6: the final text is the left fold of the splice step
`t[: r.start_index] + r.anonymized_text + t[r.end_index :]` over the records
in processing order (the reversed output), and every record carries the
original pre-rewrite `start_index`/`end_index`, `text` and `label` of a
supplied entity together with the resolved `anonymized_text` used in its
splice. -/
theorem splice_step_theorem {ε : Type} {mapping : Str → Entity → Except ε Str}
    {text : Str} {entities : List Entity} {out : Str} {recs : List Replacement}
    (h : anonymize mapping text entities = .ok (out, recs)) :
    out = recs.reverse.foldl splice text ∧
    ∀ r ∈ recs, ∃ e ∈ entities, r.start_index = e.start_index ∧
      r.end_index = e.end_index ∧ r.original_text = e.text ∧
      r.label = e.label := by
  have hloop := anonymize_ok h
  obtain ⟨nr, hnr, hmap, hout⟩ := anonymizeLoop_ok_spec hloop
  simp at hnr
  subst hnr
  refine ⟨hout, fun r hr => ?_⟩
  have hm : r.toEntity ∈ (recs.reverse).map Replacement.toEntity :=
    List.mem_map_of_mem _ (List.mem_reverse.mpr hr)
  rw [hmap] at hm
  exact ⟨r.toEntity, (sortDesc_perm entities).mem_iff.mp hm, rfl, rfl, rfl, rfl⟩

/-- Claim C6, witness: the splice-fold characterization on a concrete call. -/
theorem splice_step_witness :
    "aZc".toList = ([⟨"b".toList, "L".toList, 1, 2, "Z".toList⟩]
        : List Replacement).reverse.foldl splice "abc".toList ∧
    ∀ r ∈ ([⟨"b".toList, "L".toList, 1, 2, "Z".toList⟩] : List Replacement),
      ∃ e ∈ ([⟨"b".toList, "L".toList, 1, 2⟩] : List Entity),
        r.start_index = e.start_index ∧ r.end_index = e.end_index ∧
        r.original_text = e.text ∧ r.label = e.label :=
  splice_step_theorem
    (by decide :
      anonymize okGenZ "abc".toList [⟨"b".toList, "L".toList, 1, 2⟩]
        = .ok ("aZc".toList, [⟨"b".toList, "L".toList, 1, 2, "Z".toList⟩]))

/-- Claim C7: the worked example of the spec.  With a generator mapping
`"Alice"` to `"PersonX"` and `"Bob"` to `"PersonY"`, the call returns
`"PersonX met PersonY. PersonX left."` and exactly the three expected
records, both `"Alice"` records sharing `anonymized_text = "PersonX"`. -/
theorem worked_example_theorem :
    anonymize genAliceBob "Alice met Bob. Alice left.".toList
      [⟨"Alice".toList, "PER".toList, 0, 5⟩,
       ⟨"Bob".toList, "PER".toList, 10, 13⟩,
       ⟨"Alice".toList, "PER".toList, 15, 20⟩]
    = .ok ("PersonX met PersonY. PersonX left.".toList,
        [⟨"Alice".toList, "PER".toList, 0, 5, "PersonX".toList⟩,
         ⟨"Bob".toList, "PER".toList, 10, 13, "PersonY".toList⟩,
         ⟨"Alice".toList, "PER".toList, 15, 20, "PersonX".toList⟩]) ∧
    ([⟨"Alice".toList, "PER".toList, 0, 5, "PersonX".toList⟩,
      ⟨"Bob".toList, "PER".toList, 10, 13, "PersonY".toList⟩,
      ⟨"Alice".toList, "PER".toList, 15, 20, "PersonX".toList⟩]
      : List Replacement).length = 3 ∧
    (Replacement.mk "Alice".toList "PER".toList 0 5 "PersonX".toList).anonymized_text
      = (Replacement.mk "Alice".toList "PER".toList 15 20 "PersonX".toList).anonymized_text := by
  decide

/-- Claim C8: with zero entities the call returns the original text
unchanged and an empty record list, for every generator and every text. -/
theorem empty_input_theorem {ε : Type} (mapping : Str → Entity → Except ε Str)
    (text : Str) : anonymize mapping text [] = .ok (text, []) := rfl

/-- Claim C9: if, at any point of the processing sequence, the de-duplication
lookup does not hit (so the Value Generator is consulted) and the generator
fails, the whole `anonymize` call evaluates to exactly that error: the
failure propagates immediately, no fallback value is substituted, and no
partial output is returned. -/
theorem generator_failure_theorem {ε : Type} {mapping : Str → Entity → Except ε Str}
    {text t1 : Str} {entities es1 es2 : List Entity} {e : Entity}
    {reps1 : List Replacement} {err : ε}
    (hsplit : sortDesc entities = es1 ++ e :: es2)
    (hpre : anonymizeLoop mapping text es1 [] = .ok (t1, reps1))
    (hchk : pyNot (check_replacement e reps1) = true)
    (hgen : mapping t1 e = .error err) :
    anonymize mapping text entities = .error err := by
  have hcreate : create_replacement mapping e t1 reps1 = .error err :=
    create_replacement_gen_error hchk hgen
  simp only [anonymize]
  rw [hsplit, anonymizeLoop_append, hpre, except_bind_ok]
  show Except.map (fun p => (p.1, p.2.reverse))
      (anonymizeLoop mapping t1 (e :: es2) reps1) = .error err
  rw [anonymizeLoop_cons, hcreate, except_bind_error]
  rfl

/-- Claim C9, witness: a generator failing with error code `7` on the only
entity makes the whole call return that error. -/
theorem generator_failure_witness :
    anonymize errGen7 "abc".toList [⟨"a".toList, "L".toList, 0, 1⟩]
      = .error 7 :=
  generator_failure_theorem
    (by decide : sortDesc [⟨"a".toList, "L".toList, 0, 1⟩]
      = [] ++ ⟨"a".toList, "L".toList, 0, 1⟩ :: [])
    (by decide : anonymizeLoop errGen7 "abc".toList [] []
      = .ok ("abc".toList, []))
    (by decide)
    (by decide)

/-- Claim C10: when the first stored record with matching `original_text`
has the empty string as `anonymized_text`, the truthiness test treats it as
absent — `_create_replacement` behaves exactly as with an empty accumulator
and resolves via the Value Generator again instead of reusing the stored
empty value. -/
theorem empty_dedup_theorem {ε : Type} {mapping : Str → Entity → Except ε Str}
    {e : Entity} {t : Str} {reps : List Replacement}
    (hc : check_replacement e reps = some []) :
    create_replacement mapping e t reps
      = Except.map (fun a => ⟨e.text, e.label, e.start_index, e.end_index, a⟩)
          (mapping t e) ∧
    create_replacement mapping e t reps = create_replacement mapping e t [] := by
  have hf : pyNot (check_replacement e reps) = true := by rw [hc]; rfl
  have hf0 : pyNot (check_replacement e ([] : List Replacement)) = true := rfl
  constructor
  · cases hg : mapping t e with
    | error err => rw [create_replacement_gen_error hf hg]; rfl
    | ok s => rw [create_replacement_gen_ok hf hg]; rfl
  · cases hg : mapping t e with
    | error err =>
      rw [create_replacement_gen_error hf hg, create_replacement_gen_error hf0 hg]
    | ok s =>
      rw [create_replacement_gen_ok hf hg, create_replacement_gen_ok hf0 hg]

/-- Claim C10, witness: with a stored empty replacement for `"a"`, the step
resolves through the generator (`okGenZ`) and ignores the stored record. -/
theorem empty_dedup_witness :
    create_replacement okGenZ (⟨"a".toList, "L".toList, 2, 3⟩ : Entity)
        "xyz".toList [⟨"a".toList, "L".toList, 5, 6, []⟩]
      = Except.map (fun a =>
          ⟨("a".toList : Str), "L".toList, 2, 3, a⟩)
          (okGenZ "xyz".toList ⟨"a".toList, "L".toList, 2, 3⟩) ∧
    create_replacement okGenZ (⟨"a".toList, "L".toList, 2, 3⟩ : Entity)
        "xyz".toList [⟨"a".toList, "L".toList, 5, 6, []⟩]
      = create_replacement okGenZ (⟨"a".toList, "L".toList, 2, 3⟩ : Entity)
          "xyz".toList [] :=
  empty_dedup_theorem (by decide)
